import Mathlib

/-!
Shallow embedding of the bisection module (`src/bisection.py`).

Real numbers are modelled by `ℚ` (exact arithmetic).  Wall-clock time is
modelled by an abstract sample stream `clock : ℕ → ℚ`: the n-th call to the
performance counter during one invocation returns `clock n`.  The Python
`while` loop has no intrinsic bound, so the loop recursion is given explicit
fuel; `none` means the fuel ran out before either of the two exits fired
(the Python code would simply keep iterating).  Raised exceptions are
modelled with `Except` over the error taxonomy below; informational console
output is ignored.  The `timed_out` field is a ghost flag recording which of
the two exit statements produced the result; the Python function itself
returns only the triple (estimate, elapsed time, function value).
-/

namespace BisectionPy

/-- Error taxonomy: the two assertions in `find_root` (interval, tolerance),
the `ValueError` raised by `check_strict_monotonicity`, and the assertion in
`find_inverse_value` that the target lies inside `[a, b]`. -/
inductive Err where
  | InvalidIntervalError : Err
  | InvalidToleranceError : Err
  | NonMonotonicError : Err
  | OutOfRangeError : Err
deriving DecidableEq, Repr

/-- The example function of the module: `(x - 2) ** 3`. -/
def function (x : ℚ) : ℚ := (x - 2) ^ 3

/-- `check_strict_monotonicity`: compares the endpoint evaluations.
`f a > f b` classifies the function as strictly decreasing (`false`),
`f a < f b` as strictly increasing (`true`), and equal endpoint values
raise (`NonMonotonicError`). -/
def check_strict_monotonicity (f : ℚ → ℚ) (a b : ℚ) : Except Err Bool :=
  if f a > f b then Except.ok false
  else if f a < f b then Except.ok true
  else Except.error Err.NonMonotonicError

/-- The effective function evaluated at the midpoint: `f c` when `y == 0`,
else `y - f c` (the root of `y - f` is the inverse value). -/
def effective (f : ℚ → ℚ) (y c : ℚ) : ℚ :=
  if y = 0 then f c else y - f c

/-- The bracket update of the loop body: with an increasing flag, a positive
midpoint value moves `b` down to `c`, otherwise `a` moves up to `c`; with a
decreasing flag the two cases are swapped. -/
def bracket_update (is_inc : Bool) (func_midpoint a b c : ℚ) : ℚ × ℚ :=
  if is_inc then
    if func_midpoint > 0 then (a, c) else (c, b)
  else
    if func_midpoint > 0 then (c, b) else (a, c)

/-- Result of one `find_root` exit.  `estimate`, `elapsed` and `value` are
the members of the returned Python triple; `next` is the index of the first
unconsumed clock sample (model bookkeeping) and `timed_out` is a ghost flag
telling which of the two exit statements fired. -/
structure LoopExit where
  estimate : ℚ
  elapsed : ℚ
  value : ℚ
  next : ℕ
  timed_out : Bool
deriving DecidableEq, Repr

/-- The `while` loop of `find_root`.  Each iteration takes the midpoint `c`,
evaluates the effective function there, returns on convergence, otherwise
updates the bracket, then checks the elapsed time against the limit and
either returns the best-effort estimate or continues.  `t` is the index of
the next clock sample; the convergence exit and the timeout check each
consume one sample, and the timeout exit consumes one more for the returned
elapsed time. -/
def findRootLoop (f : ℚ → ℚ) (tolerance y run_time_limit : ℚ) (is_inc : Bool)
    (clock : ℕ → ℚ) (start : ℚ) : ℕ → ℚ → ℚ → ℕ → Option LoopExit
  | 0, _, _, _ => none
  | fuel + 1, a, b, t =>
    let c := (a + b) / 2
    let func_midpoint := effective f y c
    if |func_midpoint| ≤ tolerance then
      some ⟨c, clock t - start, func_midpoint, t + 1, false⟩
    else
      let s := bracket_update is_inc func_midpoint a b c
      if clock t - start > run_time_limit then
        some ⟨c, clock (t + 1) - start, func_midpoint, t + 2, true⟩
      else
        findRootLoop f tolerance y run_time_limit is_inc clock start fuel s.1 s.2 (t + 1)

/-- Default `run_time_limit` of `find_root` (60 seconds). -/
def find_root_default_limit : ℚ := 60

/-- `find_root`: asserts `a < b` and `tolerance > 0`, re-derives the
monotonicity flag from the endpoints (the caller-supplied `is_inc` argument
is overwritten), inverts it when `y` is nonzero, and runs the bisection
loop.  `clock 0` is the starting performance-counter sample; the loop starts
at sample index 1. -/
def find_root (f : ℚ → ℚ) (a b tolerance : ℚ) (is_inc : Bool) (y run_time_limit : ℚ)
    (clock : ℕ → ℚ) (fuel : ℕ) : Except Err (Option LoopExit) :=
  if ¬ a < b then Except.error Err.InvalidIntervalError
  else if ¬ tolerance > 0 then Except.error Err.InvalidToleranceError
  else
    match check_strict_monotonicity f a b with
    | Except.error e => Except.error e
    | Except.ok inc0 =>
        Except.ok (findRootLoop f tolerance y run_time_limit
          (if y ≠ 0 then !inc0 else inc0) clock (clock 0) fuel a b 1)

/-- Result of `find_inverse_value`: the returned Python pair plus the
bookkeeping index of the next unconsumed clock sample. -/
structure InverseExit where
  estimate : ℚ
  elapsed : ℚ
  next : ℕ
deriving DecidableEq, Repr

/-- `find_inverse_value`: asserts `a ≤ y ≤ b`, delegates to `find_root` with
the target offset `y` and a fixed 180-second time budget, and returns the
inverse estimate together with its own elapsed time, discarding the
function-value component.  The wrapper consumes clock sample 0 for its own
start time, hands the tail of the stream to `find_root`, and reads one more
sample for the returned elapsed time. -/
def find_inverse_value (f : ℚ → ℚ) (y a b tolerance : ℚ) (is_inc : Bool)
    (clock : ℕ → ℚ) (fuel : ℕ) : Except Err (Option InverseExit) :=
  if ¬ (a ≤ y ∧ y ≤ b) then Except.error Err.OutOfRangeError
  else
    match find_root f a b tolerance is_inc y 180 (fun n => clock (n + 1)) fuel with
    | Except.error e => Except.error e
    | Except.ok none => Except.ok none
    | Except.ok (some r) =>
        Except.ok (some ⟨r.estimate, clock (r.next + 1) - clock 0, r.next + 2⟩)

/-- The bracket update exactly as the specification's tie-break table states
it: row by row over the current monotonicity flag and the sign of the
effective value at the midpoint. -/
def bracket_update_spec (is_inc : Bool) (func_midpoint a b c : ℚ) : ℚ × ℚ :=
  match is_inc, decide (0 < func_midpoint) with
  | true, true => (a, c)
  | true, false => (c, b)
  | false, true => (c, b)
  | false, false => (a, c)

/-- The bracket sequence of the loop, indexed by iteration count and ignoring
the clock: `loopState k (a, b)` is the live interval after `k` full
non-converging iterations, and `none` as soon as some earlier midpoint
converges (the timeout only truncates this sequence, it never changes it). -/
def loopState (f : ℚ → ℚ) (tolerance y : ℚ) (is_inc : Bool) :
    ℕ → ℚ × ℚ → Option (ℚ × ℚ)
  | 0, s => some s
  | k + 1, (a, b) =>
    let c := (a + b) / 2
    let func_midpoint := effective f y c
    if |func_midpoint| ≤ tolerance then none
    else loopState f tolerance y is_inc k (bracket_update is_inc func_midpoint a b c)

/-! Helper lemmas about the loop, shared by the claim theorems below. -/

/-- Both exits return, as the value component, the effective function
evaluated at the returned estimate. -/
theorem findRootLoop_value_eq (f : ℚ → ℚ) (tolerance y lim start : ℚ) (inc : Bool)
    (clock : ℕ → ℚ) :
    ∀ fuel a b t r, findRootLoop f tolerance y lim inc clock start fuel a b t = some r →
      r.value = effective f y r.estimate := by
  intro fuel
  induction fuel with
  | zero => intro a b t r h; simp [findRootLoop] at h
  | succ n ih =>
    intro a b t r h
    simp only [findRootLoop] at h
    split_ifs at h with h1 h2
    · injection h with h; subst h; rfl
    · injection h with h; subst h; rfl
    · exact ih _ _ _ _ h

/-- Every returned estimate lies strictly inside the interval the loop was
started on. -/
theorem findRootLoop_estimate_mem (f : ℚ → ℚ) (tolerance y lim start : ℚ) (inc : Bool)
    (clock : ℕ → ℚ) :
    ∀ fuel a b t r, a < b →
      findRootLoop f tolerance y lim inc clock start fuel a b t = some r →
      a < r.estimate ∧ r.estimate < b := by
  intro fuel
  induction fuel with
  | zero => intro a b t r _ h; simp [findRootLoop] at h
  | succ n ih =>
    intro a b t r hab h
    simp only [findRootLoop] at h
    split_ifs at h with h1 h2
    · injection h with h; subst h
      constructor <;> (simp only []; linarith)
    · injection h with h; subst h
      constructor <;> (simp only []; linarith)
    · simp only [bracket_update] at h
      split_ifs at h with hi hp hp
      · have := ih _ _ _ _ (show a < (a + b) / 2 by linarith) h
        exact ⟨this.1, by linarith [this.2]⟩
      · have := ih _ _ _ _ (show (a + b) / 2 < b by linarith) h
        exact ⟨by linarith [this.1], this.2⟩
      · have := ih _ _ _ _ (show (a + b) / 2 < b by linarith) h
        exact ⟨by linarith [this.1], this.2⟩
      · have := ih _ _ _ _ (show a < (a + b) / 2 by linarith) h
        exact ⟨this.1, by linarith [this.2]⟩

/-- A result exits through the convergence branch (ghost flag `false`)
exactly when its value component is within tolerance. -/
theorem findRootLoop_converged_iff (f : ℚ → ℚ) (tolerance y lim start : ℚ) (inc : Bool)
    (clock : ℕ → ℚ) :
    ∀ fuel a b t r, findRootLoop f tolerance y lim inc clock start fuel a b t = some r →
      (r.timed_out = false ↔ |r.value| ≤ tolerance) := by
  intro fuel
  induction fuel with
  | zero => intro a b t r h; simp [findRootLoop] at h
  | succ n ih =>
    intro a b t r h
    simp only [findRootLoop] at h
    split_ifs at h with h1 h2
    · injection h with h; subst h; simpa using h1
    · injection h with h; subst h; simpa using h1
    · exact ih _ _ _ _ h

/-- If no clock sample ever exceeds the limit, any result exits through the
convergence branch. -/
theorem findRootLoop_no_timeout (f : ℚ → ℚ) (tolerance y lim start : ℚ) (inc : Bool)
    (clock : ℕ → ℚ) (hnt : ∀ u, clock u - start ≤ lim) :
    ∀ fuel a b t r, findRootLoop f tolerance y lim inc clock start fuel a b t = some r →
      r.timed_out = false := by
  intro fuel
  induction fuel with
  | zero => intro a b t r h; simp [findRootLoop] at h
  | succ n ih =>
    intro a b t r h
    simp only [findRootLoop] at h
    split_ifs at h with h1 h2
    · injection h with h; subst h; rfl
    · exact absurd h2 (not_lt.mpr (hnt t))
    · exact ih _ _ _ _ h

/-- With a monotone clock, a timeout exit reports an elapsed time strictly
above the limit. -/
theorem findRootLoop_timeout_elapsed (f : ℚ → ℚ) (tolerance y lim start : ℚ) (inc : Bool)
    (clock : ℕ → ℚ) (hmc : ∀ u v : ℕ, u ≤ v → clock u ≤ clock v) :
    ∀ fuel a b t r, findRootLoop f tolerance y lim inc clock start fuel a b t = some r →
      r.timed_out = true → lim < r.elapsed := by
  intro fuel
  induction fuel with
  | zero => intro a b t r h; simp [findRootLoop] at h
  | succ n ih =>
    intro a b t r h hto
    simp only [findRootLoop] at h
    split_ifs at h with h1 h2
    · injection h with h; subst h; simp at hto
    · injection h with h; subst h
      have := hmc t (t + 1) (Nat.le_succ t)
      simp only []
      linarith
    · exact ih _ _ _ _ h hto

/-- `check_strict_monotonicity` can only fail with `NonMonotonicError`. -/
theorem check_strict_monotonicity_error_eq (f : ℚ → ℚ) (a b : ℚ) (e : Err)
    (h : check_strict_monotonicity f a b = Except.error e) : e = Err.NonMonotonicError := by
  unfold check_strict_monotonicity at h
  split_ifs at h <;> simp_all

/-- Inversion of a successful `find_root` call: the preconditions held, the
monotonicity check succeeded with some flag `m`, and the result is the loop
run with that flag, inverted when `y` is nonzero. -/
theorem find_root_ok_inv (f : ℚ → ℚ) (a b tolerance y lim : ℚ) (flag : Bool)
    (clock : ℕ → ℚ) (fuel : ℕ) (o : Option LoopExit)
    (h : find_root f a b tolerance flag y lim clock fuel = Except.ok o) :
    a < b ∧ 0 < tolerance ∧ ∃ m, check_strict_monotonicity f a b = Except.ok m ∧
      o = findRootLoop f tolerance y lim (if y ≠ 0 then !m else m)
            clock (clock 0) fuel a b 1 := by
  unfold find_root at h
  by_cases hab : a < b
  · rw [if_neg (not_not_intro hab)] at h
    by_cases htol : 0 < tolerance
    · rw [if_neg (not_not_intro htol)] at h
      cases hc : check_strict_monotonicity f a b with
      | error e =>
        rw [hc] at h
        simp only [] at h
        exact Except.noConfusion h
      | ok m =>
        rw [hc] at h
        simp only [Except.ok.injEq] at h
        exact ⟨hab, htol, m, rfl, h.symm⟩
    · rw [if_pos htol] at h
      exact Except.noConfusion h
  · rw [if_pos hab] at h
    exact Except.noConfusion h

/-- A successful monotonicity check lets `find_root` reduce to the loop. -/
theorem find_root_ok_eq (f : ℚ → ℚ) (a b tolerance y lim : ℚ) (flag m : Bool)
    (clock : ℕ → ℚ) (fuel : ℕ) (hab : a < b) (htol : 0 < tolerance)
    (hm : check_strict_monotonicity f a b = Except.ok m) :
    find_root f a b tolerance flag y lim clock fuel
      = Except.ok (findRootLoop f tolerance y lim (if y ≠ 0 then !m else m)
          clock (clock 0) fuel a b 1) := by
  unfold find_root
  rw [if_neg (not_not_intro hab), if_neg (not_not_intro htol), hm]

/-- The coded bracket update agrees with the specification table. -/
theorem bracket_update_eq_spec (is_inc : Bool) (func_midpoint a b c : ℚ) :
    bracket_update is_inc func_midpoint a b c
      = bracket_update_spec is_inc func_midpoint a b c := by
  cases is_inc <;> by_cases hp : 0 < func_midpoint <;>
    simp [bracket_update, bracket_update_spec, hp]

/-- The live interval width halves every non-converged iteration. -/
theorem loopState_width (f : ℚ → ℚ) (tolerance y : ℚ) (inc : Bool) :
    ∀ k a b p, loopState f tolerance y inc k (a, b) = some p →
      p.2 - p.1 = (b - a) / 2 ^ k := by
  intro k
  induction k with
  | zero =>
    intro a b p h
    simp only [loopState, Option.some.injEq] at h
    subst h
    simp
  | succ n ih =>
    intro a b p h
    simp only [loopState] at h
    split_ifs at h with h1
    simp only [bracket_update] at h
    split_ifs at h with hi hp hp
    · have := ih _ _ _ h
      rw [this, pow_succ]
      ring
    · have := ih _ _ _ h
      rw [this, pow_succ]
      ring
    · have := ih _ _ _ h
      rw [this, pow_succ]
      ring
    · have := ih _ _ _ h
      rw [this, pow_succ]
      ring

/-- Under a clock that never exceeds the limit, running the real loop for
`k` extra units of fuel from `(a, b)` is the same as running it from the
`k`-th bracket of the iteration sequence, with the sample index advanced by
`k`. -/
theorem loopState_shift (f : ℚ → ℚ) (tolerance y lim start : ℚ) (inc : Bool)
    (clock : ℕ → ℚ) (hnt : ∀ u, clock u - start ≤ lim) :
    ∀ k fuel t a b p, loopState f tolerance y inc k (a, b) = some p →
      findRootLoop f tolerance y lim inc clock start (k + fuel) a b t
        = findRootLoop f tolerance y lim inc clock start fuel p.1 p.2 (t + k) := by
  intro k
  induction k with
  | zero =>
    intro fuel t a b p h
    simp only [loopState, Option.some.injEq] at h
    subst h
    simp
  | succ n ih =>
    intro fuel t a b p h
    simp only [loopState] at h
    split_ifs at h with h1
    have e1 : n + 1 + fuel = (n + fuel) + 1 := by omega
    rw [e1]
    simp only [findRootLoop]
    rw [if_neg h1, if_neg (not_lt.mpr (hnt t))]
    have e2 : t + (n + 1) = (t + 1) + n := by omega
    rw [e2]
    exact ih fuel (t + 1) _ _ p h

/-- `find_root` never fails with the inverse wrapper's error. -/
theorem find_root_error_ne_oor (f : ℚ → ℚ) (a b tolerance y lim : ℚ) (flag : Bool)
    (clock : ℕ → ℚ) (fuel : ℕ) (e : Err)
    (h : find_root f a b tolerance flag y lim clock fuel = Except.error e) :
    e ≠ Err.OutOfRangeError := by
  unfold find_root at h
  by_cases hab : a < b
  · rw [if_neg (not_not_intro hab)] at h
    by_cases htol : 0 < tolerance
    · rw [if_neg (not_not_intro htol)] at h
      cases hc : check_strict_monotonicity f a b with
      | error e2 =>
        rw [hc] at h
        simp only [Except.error.injEq] at h
        rw [← h, check_strict_monotonicity_error_eq f a b e2 hc]
        decide
      | ok m =>
        rw [hc] at h
        simp only [] at h
        exact Except.noConfusion h
    · rw [if_pos htol] at h
      injection h with h
      rw [← h]
      decide
  · rw [if_pos hab] at h
    injection h with h
    rw [← h]
    decide

/-! The claim theorems. -/

/-- Claim C1: for every strictly monotonic `f` and valid interval `[a, b]`
(`a < b`) bracketing a root of the effective function, with positive
tolerance and a time budget large enough that no timeout occurs (no clock
sample ever exceeds the limit), any estimate returned by `find_root` has
effective function value within tolerance and lies in `[a, b]`. -/
theorem find_root_converges_within_bracket (f : ℚ → ℚ) (a b tolerance y lim : ℚ)
    (flag : Bool) (clock : ℕ → ℚ) (fuel : ℕ) (r : LoopExit)
    (hmono : StrictMono f ∨ StrictAnti f) (hab : a < b) (htol : 0 < tolerance)
    (hroot : ∃ x, a ≤ x ∧ x ≤ b ∧ effective f y x = 0)
    (hnt : ∀ u, clock u - clock 0 ≤ lim)
    (hres : find_root f a b tolerance flag y lim clock fuel = Except.ok (some r)) :
    |effective f y r.estimate| ≤ tolerance ∧ a ≤ r.estimate ∧ r.estimate ≤ b := by
  obtain ⟨-, -, m, hm, ho⟩ := find_root_ok_inv f a b tolerance y lim flag clock fuel _ hres
  have hloop := ho.symm
  have hv := findRootLoop_value_eq f tolerance y lim (clock 0) _ clock fuel a b 1 r hloop
  have hb := findRootLoop_estimate_mem f tolerance y lim (clock 0) _ clock fuel a b 1 r hab hloop
  have hto := findRootLoop_no_timeout f tolerance y lim (clock 0) _ clock hnt fuel a b 1 r hloop
  have hconv := (findRootLoop_converged_iff f tolerance y lim (clock 0) _ clock fuel a b 1 r hloop).mp hto
  refine ⟨?_, le_of_lt hb.1, le_of_lt hb.2⟩
  rw [← hv]
  exact hconv

/-- Claim C2: in a non-converged, non-timed-out iteration the bracket is
updated exactly per the spec's tie-break table on the current flag and the
sign of the effective midpoint value, and the loop is started by `find_root`
with the internally derived flag, inverted exactly when `y ≠ 0`. -/
theorem find_root_bracket_update_table (f : ℚ → ℚ) (a b tolerance y lim start : ℚ)
    (inc flag m : Bool) (clock : ℕ → ℚ) (fuel t : ℕ)
    (hnc : ¬ |effective f y ((a + b) / 2)| ≤ tolerance)
    (hnt : ¬ clock t - start > lim)
    (hab : a < b) (htol : 0 < tolerance)
    (hm : check_strict_monotonicity f a b = Except.ok m) :
    bracket_update inc (effective f y ((a + b) / 2)) a b ((a + b) / 2)
        = bracket_update_spec inc (effective f y ((a + b) / 2)) a b ((a + b) / 2)
    ∧ findRootLoop f tolerance y lim inc clock start (fuel + 1) a b t
        = findRootLoop f tolerance y lim inc clock start fuel
            (bracket_update_spec inc (effective f y ((a + b) / 2)) a b ((a + b) / 2)).1
            (bracket_update_spec inc (effective f y ((a + b) / 2)) a b ((a + b) / 2)).2
            (t + 1)
    ∧ find_root f a b tolerance flag y lim clock fuel
        = Except.ok (findRootLoop f tolerance y lim (if y ≠ 0 then !m else m)
            clock (clock 0) fuel a b 1) := by
  refine ⟨bracket_update_eq_spec _ _ _ _ _, ?_,
    find_root_ok_eq f a b tolerance y lim flag m clock fuel hab htol hm⟩
  simp only [findRootLoop]
  rw [if_neg hnc, if_neg hnt, bracket_update_eq_spec]

/-- Claim C3: `find_root` fails, and fails only, on precondition violation:
`a ≥ b` gives the interval error, nonpositive tolerance the tolerance
error, equal endpoint evaluations the non-monotonicity error, and inputs
satisfying all three preconditions produce a non-error result. -/
theorem find_root_error_taxonomy (f : ℚ → ℚ) (a b tolerance y lim : ℚ) (flag : Bool)
    (clock : ℕ → ℚ) (fuel : ℕ) :
    (find_root f a b tolerance flag y lim clock fuel
        = Except.error Err.InvalidIntervalError ↔ b ≤ a)
    ∧ (find_root f a b tolerance flag y lim clock fuel
        = Except.error Err.InvalidToleranceError ↔ a < b ∧ tolerance ≤ 0)
    ∧ (find_root f a b tolerance flag y lim clock fuel
        = Except.error Err.NonMonotonicError ↔ a < b ∧ 0 < tolerance ∧ f a = f b)
    ∧ ((∃ o, find_root f a b tolerance flag y lim clock fuel = Except.ok o)
        ↔ a < b ∧ 0 < tolerance ∧ f a ≠ f b) := by
  unfold find_root check_strict_monotonicity
  by_cases hab : a < b
  · rw [if_neg (not_not_intro hab)]
    by_cases htol : 0 < tolerance
    · rw [if_neg (not_not_intro htol)]
      by_cases hgt : f a > f b
      · rw [if_pos hgt]
        simp [hab, htol, not_le.mpr hab, not_le.mpr htol, ne_of_gt hgt]
      · rw [if_neg hgt]
        by_cases hlt : f a < f b
        · rw [if_pos hlt]
          simp [hab, htol, not_le.mpr hab, not_le.mpr htol, ne_of_lt hlt]
        · rw [if_neg hlt]
          have heq : f a = f b := le_antisymm (not_lt.mp hgt) (not_lt.mp hlt)
          simp [hab, htol, not_le.mpr hab, not_le.mpr htol, heq]
    · rw [if_pos htol]
      simp [hab, htol, not_le.mpr hab, not_lt.mp htol]
  · rw [if_pos hab]
    simp [hab, not_lt.mp hab]

/-- Claim C4: with a monotone clock, a result that exits through the timeout
branch is returned normally (no error), reports an elapsed time at least the
budget, and carries the effective function value at the returned midpoint;
this holds for every budget, including zero. -/
theorem find_root_timeout_soft_exit (f : ℚ → ℚ) (a b tolerance y lim : ℚ)
    (flag : Bool) (clock : ℕ → ℚ) (fuel : ℕ) (r : LoopExit)
    (hmc : ∀ u v : ℕ, u ≤ v → clock u ≤ clock v)
    (hres : find_root f a b tolerance flag y lim clock fuel = Except.ok (some r))
    (hto : r.timed_out = true) :
    lim ≤ r.elapsed ∧ r.value = effective f y r.estimate := by
  obtain ⟨-, -, m, hm, ho⟩ := find_root_ok_inv f a b tolerance y lim flag clock fuel _ hres
  have hloop := ho.symm
  exact ⟨le_of_lt (findRootLoop_timeout_elapsed f tolerance y lim (clock 0) _ clock hmc
      fuel a b 1 r hloop hto),
    findRootLoop_value_eq f tolerance y lim (clock 0) _ clock fuel a b 1 r hloop⟩

/-- Claim C5: for inputs satisfying its precondition, `find_inverse_value`
returns the estimate of the `find_root` call with the same arguments and a
180-second budget (three times the solver's 60-second default), paired with
its own elapsed time, and discards the function-value residual. -/
theorem find_inverse_value_delegates_to_solver (f : ℚ → ℚ) (y a b tolerance : ℚ)
    (flag : Bool) (clock : ℕ → ℚ) (fuel : ℕ) (o : Option LoopExit)
    (h1 : a ≤ y) (h2 : y ≤ b)
    (hr : find_root f a b tolerance flag y 180 (fun n => clock (n + 1)) fuel
      = Except.ok o) :
    find_inverse_value f y a b tolerance flag clock fuel
      = Except.ok (o.map fun r =>
          ⟨r.estimate, clock (r.next + 1) - clock 0, r.next + 2⟩)
    ∧ (180 : ℚ) = 3 * find_root_default_limit := by
  constructor
  · unfold find_inverse_value
    rw [if_neg (not_not_intro ⟨h1, h2⟩), hr]
    cases o <;> rfl
  · norm_num [find_root_default_limit]

/-- Claim C6: `find_inverse_value` raises `OutOfRangeError` exactly when the
target `y` falls outside the interval `[a, b]`. -/
theorem find_inverse_value_out_of_range_iff (f : ℚ → ℚ) (y a b tolerance : ℚ)
    (flag : Bool) (clock : ℕ → ℚ) (fuel : ℕ) :
    find_inverse_value f y a b tolerance flag clock fuel
        = Except.error Err.OutOfRangeError
      ↔ (y < a ∨ b < y) := by
  unfold find_inverse_value
  by_cases hy : a ≤ y ∧ y ≤ b
  · rw [if_neg (not_not_intro hy)]
    constructor
    · intro h
      cases hr : find_root f a b tolerance flag y 180 (fun n => clock (n + 1)) fuel with
      | error e =>
        rw [hr] at h
        simp only [] at h
        injection h with h
        exact absurd h (find_root_error_ne_oor f a b tolerance y 180 flag _ fuel e hr)
      | ok o =>
        rw [hr] at h
        cases o with
        | none => exact Except.noConfusion h
        | some r0 => exact Except.noConfusion h
    · intro h
      rcases h with h | h
      · exact absurd hy.1 (not_le.mpr h)
      · exact absurd hy.2 (not_le.mpr h)
  · rw [if_pos hy]
    constructor
    · intro _
      rcases not_and_or.mp hy with h | h
      · exact Or.inl (not_le.mp h)
      · exact Or.inr (not_le.mp h)
    · intro _
      rfl

/-- Claim C7: the result of `find_root` does not depend on the
caller-supplied monotonicity flag (it is recomputed internally), so two
calls with identical remaining inputs return identical results. -/
theorem find_root_flag_independent (f : ℚ → ℚ) (a b tolerance y lim : ℚ)
    (flag1 flag2 : Bool) (clock : ℕ → ℚ) (fuel : ℕ) :
    find_root f a b tolerance flag1 y lim clock fuel
      = find_root f a b tolerance flag2 y lim clock fuel := rfl

/-- Claim C8: if the loop runs `k` iterations without converging, the live
interval width is exactly `(b - a) / 2 ^ k`; absent timeout this iteration
sequence is exactly what the real loop follows, and each single iteration
replaces exactly one endpoint with the midpoint. -/
theorem find_root_interval_halving (f : ℚ → ℚ) (tolerance y lim start : ℚ)
    (inc : Bool) (clock : ℕ → ℚ) (k fuel t : ℕ) (a b a2 b2 : ℚ)
    (hk : loopState f tolerance y inc k (a, b) = some (a2, b2))
    (hnt : ∀ u, clock u - start ≤ lim) :
    b2 - a2 = (b - a) / 2 ^ k
    ∧ findRootLoop f tolerance y lim inc clock start (k + fuel) a b t
        = findRootLoop f tolerance y lim inc clock start fuel a2 b2 (t + k)
    ∧ (k = 1 → (a2 = a ∧ b2 = (a + b) / 2) ∨ (a2 = (a + b) / 2 ∧ b2 = b)) := by
  refine ⟨?_, ?_, ?_⟩
  · simpa using loopState_width f tolerance y inc k a b (a2, b2) hk
  · simpa using loopState_shift f tolerance y lim start inc clock hnt k fuel t a b (a2, b2) hk
  · intro hk1
    subst hk1
    simp only [loopState] at hk
    split_ifs at hk with h1
    simp only [Option.some.injEq] at hk
    simp only [bracket_update] at hk
    split_ifs at hk with hi hp hp
    · injection hk with hA hB
      exact Or.inl ⟨hA.symm, hB.symm⟩
    · injection hk with hA hB
      exact Or.inr ⟨hA.symm, hB.symm⟩
    · injection hk with hA hB
      exact Or.inr ⟨hA.symm, hB.symm⟩
    · injection hk with hA hB
      exact Or.inl ⟨hA.symm, hB.symm⟩

/-- Claim C9: the value component distinguishes the two exits exactly: a
timeout exit carries a value strictly above tolerance in absolute value, and
the value is within tolerance if and only if the call exited via
convergence. -/
theorem find_root_value_discriminates_exits (f : ℚ → ℚ) (a b tolerance y lim : ℚ)
    (flag : Bool) (clock : ℕ → ℚ) (fuel : ℕ) (r : LoopExit)
    (hres : find_root f a b tolerance flag y lim clock fuel = Except.ok (some r)) :
    (r.timed_out = true → tolerance < |r.value|)
    ∧ (|r.value| ≤ tolerance ↔ r.timed_out = false) := by
  obtain ⟨-, -, m, hm, ho⟩ := find_root_ok_inv f a b tolerance y lim flag clock fuel _ hres
  have hiff := findRootLoop_converged_iff f tolerance y lim (clock 0) _ clock fuel a b 1 r ho.symm
  constructor
  · intro h
    by_contra hc
    have hfalse : r.timed_out = false := hiff.mpr (not_lt.mp hc)
    rw [h] at hfalse
    exact Bool.noConfusion hfalse
  · exact hiff.symm

/-- Claim C10: over exact arithmetic every estimate returned by `find_root`
(on both exits) is strictly inside the original interval, and so is the
estimate returned by `find_inverse_value`; neither original endpoint is ever
returned. -/
theorem find_root_estimate_strictly_interior (f : ℚ → ℚ) (a b tolerance y lim : ℚ)
    (flag : Bool) (clock : ℕ → ℚ) (fuel : ℕ) (r : LoopExit) (ri : InverseExit)
    (hab : a < b) :
    (find_root f a b tolerance flag y lim clock fuel = Except.ok (some r) →
      a < r.estimate ∧ r.estimate < b)
    ∧ (find_inverse_value f y a b tolerance flag clock fuel = Except.ok (some ri) →
      a < ri.estimate ∧ ri.estimate < b) := by
  constructor
  · intro hres
    obtain ⟨-, -, m, hm, ho⟩ := find_root_ok_inv f a b tolerance y lim flag clock fuel _ hres
    exact findRootLoop_estimate_mem f tolerance y lim (clock 0) _ clock fuel a b 1 r hab ho.symm
  · intro hres
    unfold find_inverse_value at hres
    by_cases hy : a ≤ y ∧ y ≤ b
    · rw [if_neg (not_not_intro hy)] at hres
      cases hr : find_root f a b tolerance flag y 180 (fun n => clock (n + 1)) fuel with
      | error e =>
        rw [hr] at hres
        simp only [] at hres
        exact Except.noConfusion hres
      | ok o =>
        rw [hr] at hres
        cases o with
        | none => simp at hres
        | some r0 =>
          simp only [Except.ok.injEq, Option.some.injEq] at hres
          obtain ⟨-, -, m, hm, ho⟩ :=
            find_root_ok_inv f a b tolerance y 180 flag (fun n => clock (n + 1)) fuel _ hr
          have hb := findRootLoop_estimate_mem f tolerance y 180 ((fun n => clock (n + 1)) 0)
            _ (fun n => clock (n + 1)) fuel a b 1 r0 hab ho.symm
          rw [← hres]
          exact hb
    · rw [if_pos hy] at hres
      exact Except.noConfusion hres

/-! Concrete witnesses instantiating the claim theorems. -/

/-- Concrete instance of claim C1: `f x = x` on `[-1, 1]`, tolerance `1/2`,
a clock that never advances, budget `0`; the run converges at the first
midpoint `0`. -/
theorem find_root_converges_within_bracket_witness :
    |effective (fun x : ℚ => x) 0 (⟨0, 0, 0, 2, false⟩ : LoopExit).estimate| ≤ 1/2
    ∧ (-1 : ℚ) ≤ (⟨0, 0, 0, 2, false⟩ : LoopExit).estimate
    ∧ (⟨0, 0, 0, 2, false⟩ : LoopExit).estimate ≤ 1 :=
  find_root_converges_within_bracket (fun x => x) (-1) 1 (1/2) 0 0 true (fun _ => 0) 1
    ⟨0, 0, 0, 2, false⟩
    (Or.inl strictMono_id) (by norm_num) (by norm_num)
    ⟨0, by norm_num, by norm_num, by norm_num [effective]⟩
    (fun u => by norm_num)
    (by norm_num [find_root, check_strict_monotonicity, findRootLoop, effective,
      bracket_update])

/-- Concrete instance of claim C2: `f x = x` on `[1, 2]`, tolerance `1/10`;
the first midpoint `3/2` does not converge and no timeout fires. -/
theorem find_root_bracket_update_table_witness :
    bracket_update true (effective (fun x : ℚ => x) 0 ((1 + 2) / 2)) 1 2 ((1 + 2) / 2)
        = bracket_update_spec true (effective (fun x : ℚ => x) 0 ((1 + 2) / 2)) 1 2
            ((1 + 2) / 2)
    ∧ findRootLoop (fun x : ℚ => x) (1/10) 0 0 true (fun _ => 0) 0 (0 + 1) 1 2 1
        = findRootLoop (fun x : ℚ => x) (1/10) 0 0 true (fun _ => 0) 0 0
            (bracket_update_spec true (effective (fun x : ℚ => x) 0 ((1 + 2) / 2)) 1 2
              ((1 + 2) / 2)).1
            (bracket_update_spec true (effective (fun x : ℚ => x) 0 ((1 + 2) / 2)) 1 2
              ((1 + 2) / 2)).2
            (1 + 1)
    ∧ find_root (fun x : ℚ => x) 1 2 (1/10) true 0 0 (fun _ => 0) 0
        = Except.ok (findRootLoop (fun x : ℚ => x) (1/10) 0 0
            (if (0 : ℚ) ≠ 0 then !true else true) (fun _ => 0) 0 0 1 2 1) :=
  find_root_bracket_update_table (fun x => x) 1 2 (1/10) 0 0 0 true true true
    (fun _ => 0) 0 1
    (by norm_num [effective, abs_of_pos]) (by norm_num) (by norm_num) (by norm_num)
    (by norm_num [check_strict_monotonicity])

/-- Concrete instance of claim C4: `f x = x` on `[1, 2]`, budget `0`, clock
samples `0, 1, 2, ...`; the first iteration does not converge and the
timeout fires. -/
theorem find_root_timeout_soft_exit_witness :
    (0 : ℚ) ≤ (⟨3/2, 2, 3/2, 3, true⟩ : LoopExit).elapsed
    ∧ (⟨3/2, 2, 3/2, 3, true⟩ : LoopExit).value
        = effective (fun x : ℚ => x) 0 (⟨3/2, 2, 3/2, 3, true⟩ : LoopExit).estimate :=
  find_root_timeout_soft_exit (fun x => x) 1 2 (1/10) 0 0 true (fun n => (n : ℚ)) 1
    ⟨3/2, 2, 3/2, 3, true⟩
    (fun u v h => Nat.cast_le.mpr h)
    (by norm_num [find_root, check_strict_monotonicity, findRootLoop, effective,
      bracket_update, abs_of_pos])
    rfl

/-- Concrete instance of claim C5: `f x = x`, target `y = 1/2` inside
`[0, 1]`; the inner solver converges at the first midpoint `1/2`. -/
theorem find_inverse_value_delegates_to_solver_witness :
    find_inverse_value (fun x : ℚ => x) (1/2) 0 1 (1/2) true (fun _ => 0) 1
      = Except.ok ((some (⟨1/2, 0, 0, 2, false⟩ : LoopExit)).map fun r =>
          ⟨r.estimate, (0 : ℚ) - 0, r.next + 2⟩)
    ∧ (180 : ℚ) = 3 * find_root_default_limit :=
  find_inverse_value_delegates_to_solver (fun x => x) (1/2) 0 1 (1/2) true (fun _ => 0) 1
    (some ⟨1/2, 0, 0, 2, false⟩)
    (by norm_num) (by norm_num)
    (by norm_num [find_root, check_strict_monotonicity, findRootLoop, effective,
      bracket_update])

/-- Concrete instance of claim C8: `f x = x` on `[0, 1]`, tolerance `1/100`;
one non-converging iteration moves the bracket to `[0, 1/2]`. -/
theorem find_root_interval_halving_witness :
    (1/2 : ℚ) - 0 = (1 - 0) / 2 ^ 1
    ∧ findRootLoop (fun x : ℚ => x) (1/100) 0 0 true (fun _ => 0) 0 (1 + 0) 0 1 1
        = findRootLoop (fun x : ℚ => x) (1/100) 0 0 true (fun _ => 0) 0 0 0 (1/2) (1 + 1)
    ∧ (1 = 1 → ((0 : ℚ) = 0 ∧ (1/2 : ℚ) = (0 + 1) / 2)
        ∨ ((0 : ℚ) = (0 + 1) / 2 ∧ (1/2 : ℚ) = 1)) :=
  find_root_interval_halving (fun x => x) (1/100) 0 0 0 true (fun _ => 0) 1 0 1 0 1 0 (1/2)
    (by norm_num [loopState, effective, bracket_update, abs_of_pos])
    (fun u => by norm_num)

/-- Concrete instance of claim C9: the timeout run of `f x = x` on `[1, 2]`
returns the value `3/2`, strictly above the tolerance `1/10`. -/
theorem find_root_value_discriminates_exits_witness :
    ((⟨3/2, 2, 3/2, 3, true⟩ : LoopExit).timed_out = true →
      (1/10 : ℚ) < |(⟨3/2, 2, 3/2, 3, true⟩ : LoopExit).value|)
    ∧ (|(⟨3/2, 2, 3/2, 3, true⟩ : LoopExit).value| ≤ 1/10
        ↔ (⟨3/2, 2, 3/2, 3, true⟩ : LoopExit).timed_out = false) :=
  find_root_value_discriminates_exits (fun x => x) 1 2 (1/10) 0 0 true (fun n => (n : ℚ)) 1
    ⟨3/2, 2, 3/2, 3, true⟩
    (by norm_num [find_root, check_strict_monotonicity, findRootLoop, effective,
      bracket_update, abs_of_pos])

/-- Concrete instance of claim C10: `f x = x` on `[-1, 1]`; both the solver
estimate and the inverse-wrapper estimate are the interior point `0`. -/
theorem find_root_estimate_strictly_interior_witness :
    ((-1 : ℚ) < (⟨0, 0, 0, 2, false⟩ : LoopExit).estimate
      ∧ (⟨0, 0, 0, 2, false⟩ : LoopExit).estimate < 1)
    ∧ ((-1 : ℚ) < (⟨0, 0, 4⟩ : InverseExit).estimate
      ∧ (⟨0, 0, 4⟩ : InverseExit).estimate < 1) :=
  ⟨(find_root_estimate_strictly_interior (fun x => x) (-1) 1 (1/2) 0 0 true (fun _ => 0) 1
      ⟨0, 0, 0, 2, false⟩ ⟨0, 0, 4⟩ (by norm_num)).1
    (by norm_num [find_root, check_strict_monotonicity, findRootLoop, effective,
      bracket_update]),
   (find_root_estimate_strictly_interior (fun x => x) (-1) 1 (1/2) 0 0 true (fun _ => 0) 1
      ⟨0, 0, 0, 2, false⟩ ⟨0, 0, 4⟩ (by norm_num)).2
    (by norm_num [find_inverse_value, find_root, check_strict_monotonicity, findRootLoop,
      effective, bracket_update])⟩

end BisectionPy
